import Mathlib

/-!
Shallow embedding of the `mmapfile` Go package (dwisiswant0/mmapfile).

The mapped region is a `List Nat` of byte values; the cursor is an `Int`
(Go `int64`).  Go's `copy`, `Truncate` and the int64 wraparound of `+` are
modelled explicitly.  Each operation is translated line by line from the
Go source (`mmapfile.go`, `mmapfile_unix.go`).
-/

/-- Errors of the package, plus `io.EOF` and a catch-all for `fmt.Errorf`
results (open-time failures).  Mirrors the `var ( Err... )` block. -/
inductive GoErr where
  | errClosed
  | errReadOnly
  | errInvalidWhence
  | errNegativeOffset
  | errOffsetTooLarge
  | errWriteOutOfBounds
  | eof
  | other (msg : String)
deriving DecidableEq, Repr

/-- The `MmapFile` struct: mapped bytes, shared cursor (`offset int64`),
file name, writable and closed flags.  The mutex and the platform field
(only used by `Stat`) are not modelled. -/
structure MmapFile where
  data : List Nat
  offset : Int
  name : String
  writable : Bool
  closed : Bool
deriving DecidableEq, Repr

/-- Go's builtin `copy(dst, src)`: copies `min (len dst) (len src)` bytes
into the front of `dst`, returns the count and the updated `dst`. -/
def goCopy (dst src : List Nat) : Nat × List Nat :=
  let n := min dst.length src.length
  (n, src.take n ++ dst.drop n)

deriving instance DecidableEq for Except

/-- Two's-complement wraparound of Go `int64` addition results. -/
def wrap64 (x : Int) : Int := (x + 2 ^ 63) % 2 ^ 64 - 2 ^ 63

namespace MmapFile

/-- `Name() string`. -/
def Name (f : MmapFile) : String := f.name

/-- `Len() int`: length of the mapped region. -/
def Len (f : MmapFile) : Nat := f.data.length

/-- `Bytes() []byte`: direct access to the mapped slice. -/
def Bytes (f : MmapFile) : List Nat := f.data

/-- Result of `ReadAt`: bytes read, error, and the caller's buffer after
the `copy`. -/
structure ReadAtRet where
  n : Nat
  err : Option GoErr
  buf : List Nat
deriving DecidableEq, Repr

/-- `ReadAt(b []byte, off int64) (n int, err error)`. -/
def ReadAt (f : MmapFile) (b : List Nat) (off : Int) : ReadAtRet :=
  if f.closed then ⟨0, some .errClosed, b⟩
  else if off < 0 then ⟨0, some .errNegativeOffset, b⟩
  else if (f.data.length : Int) ≤ off then ⟨0, some .eof, b⟩
  else
    let p := goCopy b (f.data.drop off.toNat)
    if p.1 < b.length then ⟨p.1, some .eof, p.2⟩ else ⟨p.1, none, p.2⟩

/-- Result of `Read`: bytes read, error, caller's buffer after the
`copy`, and the handle (cursor advanced). -/
structure ReadRet where
  n : Nat
  err : Option GoErr
  buf : List Nat
  f : MmapFile
deriving DecidableEq, Repr

/-- `Read(b []byte) (n int, err error)`: reads at the cursor, advances it. -/
def Read (f : MmapFile) (b : List Nat) : ReadRet :=
  if f.closed then ⟨0, some .errClosed, b, f⟩
  else if (f.data.length : Int) ≤ f.offset then ⟨0, some .eof, b, f⟩
  else
    let p := goCopy b (f.data.drop f.offset.toNat)
    let f' := { f with offset := f.offset + (p.1 : Int) }
    if p.1 < b.length then ⟨p.1, some .eof, p.2, f'⟩ else ⟨p.1, none, p.2, f'⟩

/-- Result of a write-side operation: bytes written, error, handle. -/
structure WriteRet where
  n : Nat
  err : Option GoErr
  f : MmapFile
deriving DecidableEq, Repr

/-- `WriteAt(b []byte, off int64) (n int, err error)`. -/
def WriteAt (f : MmapFile) (b : List Nat) (off : Int) : WriteRet :=
  if f.closed then ⟨0, some .errClosed, f⟩
  else if !f.writable then ⟨0, some .errReadOnly, f⟩
  else if off < 0 then ⟨0, some .errNegativeOffset, f⟩
  else if (f.data.length : Int) ≤ off then ⟨0, some .errWriteOutOfBounds, f⟩
  else
    let offN := off.toNat
    let available : Int := (f.data.length : Int) - off
    if available < (b.length : Int) then
      let p := goCopy (f.data.drop offN) (b.take available.toNat)
      ⟨p.1, some .errWriteOutOfBounds, { f with data := f.data.take offN ++ p.2 }⟩
    else
      let p := goCopy (f.data.drop offN) b
      ⟨p.1, none, { f with data := f.data.take offN ++ p.2 }⟩

/-- `Write(b []byte) (n int, err error)`: writes at the cursor, advances it. -/
def Write (f : MmapFile) (b : List Nat) : WriteRet :=
  if f.closed then ⟨0, some .errClosed, f⟩
  else if !f.writable then ⟨0, some .errReadOnly, f⟩
  else
    let available : Int := (f.data.length : Int) - f.offset
    if available ≤ 0 then ⟨0, some .errWriteOutOfBounds, f⟩
    else
      let offN := f.offset.toNat
      if available < (b.length : Int) then
        let p := goCopy (f.data.drop offN) (b.take available.toNat)
        ⟨p.1, some .errWriteOutOfBounds,
          { f with data := f.data.take offN ++ p.2, offset := f.offset + (p.1 : Int) }⟩
      else
        let p := goCopy (f.data.drop offN) b
        ⟨p.1, none,
          { f with data := f.data.take offN ++ p.2, offset := f.offset + (p.1 : Int) }⟩

/-- Result of `Seek`: new position, error, handle. -/
structure SeekRet where
  pos : Int
  err : Option GoErr
  f : MmapFile
deriving DecidableEq, Repr

/-- `Seek(offset int64, whence int) (int64, error)`.  `io.SeekStart = 0`,
`io.SeekCurrent = 1`, `io.SeekEnd = 2`.  The int64 additions wrap. -/
def Seek (f : MmapFile) (offset : Int) (whence : Int) : SeekRet :=
  if f.closed then ⟨0, some .errClosed, f⟩
  else
    let setTo : Int → SeekRet := fun newOffset =>
      if newOffset < 0 then ⟨0, some .errNegativeOffset, f⟩
      else ⟨newOffset, none, { f with offset := newOffset }⟩
    if whence = 0 then setTo offset
    else if whence = 1 then setTo (wrap64 (f.offset + offset))
    else if whence = 2 then setTo (wrap64 ((f.data.length : Int) + offset))
    else ⟨0, some .errInvalidWhence, f⟩

/-- `Close() error`: idempotent; first call marks closed and releases the
mapping (`f.data = nil`; `Munmap` is modelled as succeeding). -/
def Close (f : MmapFile) : Option GoErr × MmapFile :=
  if f.closed then (none, f)
  else (none, { f with closed := true, data := [] })

/-- Result of `ReadFrom`: bytes written, error, handle, remaining source
bytes. -/
structure ReadFromRet where
  n : Nat
  err : Option GoErr
  f : MmapFile
  src : List Nat
deriving DecidableEq, Repr

/-- The `for f.offset < int64(len(f.data))` loop of `ReadFrom`, followed by
the one-byte probe.  The abstract `io.Reader` source is modelled as a
`bytes.Reader` over a list: `Read` on an exhausted source returns
`(0, io.EOF)`, otherwise it copies `min (len p) (len remaining)` bytes into
the target slice `p` and returns no error.  The `m = 0` escape can only
fire at cursor states Go itself cannot reach without panicking (negative
cursor); it keeps the model total. -/
def readFromLoop (f : MmapFile) (s : List Nat) (n : Nat) : ReadFromRet :=
  if _h : f.offset < (f.data.length : Int) then
    if hs : s = [] then ⟨n, none, f, []⟩
    else
      let offN := f.offset.toNat
      let m := min (f.data.length - offN) s.length
      if hm : m = 0 then ⟨n, none, f, s⟩
      else
        let f' : MmapFile :=
          { f with data := f.data.take offN ++ (s.take m ++ (f.data.drop offN).drop m),
                   offset := f.offset + (m : Int) }
        readFromLoop f' (s.drop m) (n + m)
  else
    match s with
    | [] => ⟨n, none, f, []⟩
    | _ :: rest => ⟨n, some .errWriteOutOfBounds, f, rest⟩
termination_by s.length
decreasing_by
  simp only [List.length_drop]
  omega

/-- `ReadFrom(r io.Reader) (n int64, err error)`: fills the region from the
cursor until the source is exhausted or the region is full, then probes the
source one more byte to decide between success and `ErrWriteOutOfBounds`. -/
def ReadFrom (f : MmapFile) (s : List Nat) : ReadFromRet :=
  if f.closed then ⟨0, some .errClosed, f, s⟩
  else if !f.writable then ⟨0, some .errReadOnly, f, s⟩
  else readFromLoop f s 0

end MmapFile

/-- The `flag int` argument of `OpenFile`, split into the named bits the
code inspects (`os.O_RDWR`, `os.O_WRONLY`, `os.O_CREATE`, `os.O_TRUNC`,
`os.O_APPEND`). -/
structure OpenFlags where
  rdwr : Bool
  wronly : Bool
  create : Bool
  trunc : Bool
  append : Bool
deriving DecidableEq, Repr

/-- `os.File.Truncate(size)` acting on file contents: shrink, or extend
with zero bytes. -/
def goTruncate (contents : List Nat) (size : Nat) : List Nat :=
  contents.take size ++ List.replicate (size - contents.length) 0

/-- `OpenFile(name, flag, perm, size)` (unix variant).  The file system is
abstracted to the contents of the named path (`none` when the path does not
exist); `perm` only feeds `os.OpenFile` and is omitted.  `os.OpenFile` with
`O_CREATE` creates an empty file; without it, a missing path is an error.
`Stat` and `Mmap` are modelled as succeeding (their failure paths are
environmental), but `f.Truncate` — invoked when create/truncate request a
positive size — fails deterministically (`EINVAL`) on a descriptor opened
read-only (the code opens with `osFlag = O_RDONLY` when neither `O_RDWR`
nor `O_WRONLY` is set), and the code wraps and returns that error.  The
`fileSize < 0` and `fileSize != int64(int(fileSize))` guards cannot fire
for a list-modelled file and are dropped. -/
def OpenFile (fileOnDisk : Option (List Nat)) (name : String) (flag : OpenFlags)
    (size : Int) : Except GoErr MmapFile :=
  let writable := flag.rdwr || flag.wronly
  if flag.append then .error (.other "mmapfile: O_APPEND is not supported")
  else if fileOnDisk.isNone ∧ flag.create = false then
    .error (.other "no such file or directory")
  else
    let contents := fileOnDisk.getD []
    let fileSize : Int := (contents.length : Int)
    if flag.create = true ∧ fileSize = 0 ∧ 0 < size then
      if writable = true then
        .ok ⟨goTruncate contents size.toNat, 0, name, writable, false⟩
      else .error (.other "mmapfile: failed to set file size: invalid argument")
    else if flag.trunc = true ∧ 0 < size then
      if writable = true then
        .ok ⟨goTruncate contents size.toNat, 0, name, writable, false⟩
      else .error (.other "mmapfile: failed to truncate file: invalid argument")
    else .ok ⟨contents, 0, name, writable, false⟩

/-! ## Helper lemmas -/

/-- `wrap64` is the identity on values already in int64 range. -/
theorem wrap64_eq_of_range (x : Int) (h1 : -2 ^ 63 ≤ x) (h2 : x < 2 ^ 63) :
    wrap64 x = x := by
  unfold wrap64
  have h0 : 0 ≤ x + 2 ^ 63 := by omega
  have hlt : x + 2 ^ 63 < 2 ^ 64 := by omega
  rw [Int.emod_eq_of_lt h0 hlt]
  omega

/-! ## C1: the `ReadAt` contract -/

/-- C1.  `ReadAt(b, o)` fails `ErrClosed` on a closed handle; fails
`ErrNegativeOffset` moving zero bytes when `o < 0`; returns 0 bytes with
`io.EOF` when `o ≥ Len()`; and for `0 ≤ o < Len()` copies exactly
`min (len b) (Len() − o)` bytes out of the region into the buffer,
returning no error when that equals `len b` and `io.EOF` with the partial
count otherwise. -/
theorem ReadAt_contract (f : MmapFile) (b : List Nat) (o : Int) :
    (f.closed = true → f.ReadAt b o = ⟨0, some .errClosed, b⟩) ∧
    (f.closed = false → o < 0 → f.ReadAt b o = ⟨0, some .errNegativeOffset, b⟩) ∧
    (f.closed = false → 0 ≤ o → (f.Len : Int) ≤ o → f.ReadAt b o = ⟨0, some .eof, b⟩) ∧
    (f.closed = false → 0 ≤ o → o < (f.Len : Int) →
      (f.ReadAt b o).n = min b.length (f.Len - o.toNat) ∧
      (f.ReadAt b o).buf =
        (f.data.drop o.toNat).take (f.ReadAt b o).n ++ b.drop (f.ReadAt b o).n ∧
      ((f.ReadAt b o).n = b.length → (f.ReadAt b o).err = none) ∧
      ((f.ReadAt b o).n < b.length → (f.ReadAt b o).err = some .eof)) := by
  unfold MmapFile.ReadAt MmapFile.Len goCopy
  refine ⟨fun hc => by simp [hc], fun hc ho => by simp [hc, ho], ?_, ?_⟩
  · intro hc ho hlen
    simp [hc, not_lt.mpr ho, hlen]
  · intro hc ho hlt
    simp only [hc, Bool.false_eq_true, if_false, not_lt.mpr ho, not_le.mpr hlt]
    by_cases hp : min b.length (f.data.drop o.toNat).length < b.length
    · simp only [if_pos hp]
      exact ⟨by simp [List.length_drop], trivial, fun hn => absurd hn (by omega), fun _ => trivial⟩
    · simp only [if_neg hp]
      exact ⟨by simp [List.length_drop], trivial, fun _ => trivial, fun hn => absurd hn (by omega)⟩

/-- Witness for C1 at concrete inputs: an open 3-byte handle rejects a
negative offset untouched, and an in-range 2-byte read at offset 1
succeeds with no error. -/
theorem ReadAt_contract_witness :
    (⟨[1, 2, 3], 0, "x", true, false⟩ : MmapFile).closed = false ∧
    MmapFile.ReadAt ⟨[1, 2, 3], 0, "x", true, false⟩ [9] (-1) =
      ⟨0, some .errNegativeOffset, [9]⟩ ∧
    (MmapFile.ReadAt ⟨[1, 2, 3], 0, "x", true, false⟩ [9, 9] 1).err = none :=
  ⟨rfl,
   (ReadAt_contract ⟨[1, 2, 3], 0, "x", true, false⟩ [9] (-1)).2.1 rfl (by decide),
   ((ReadAt_contract ⟨[1, 2, 3], 0, "x", true, false⟩ [9, 9] 1).2.2.2 rfl (by decide)
      (by decide)).2.2.1 (by decide)⟩

/-! ## C2: the `WriteAt` contract -/

/-- C2.  `WriteAt(b, o)` fails `ErrClosed` when closed and `ErrReadOnly`
when not writable; fails `ErrNegativeOffset` moving zero bytes when
`o < 0`; fails `ErrWriteOutOfBounds` with zero bytes written when
`o ≥ Len()`; when `len b` exceeds `Len() − o` it writes exactly the
`Len() − o` bytes that fit and reports `ErrWriteOutOfBounds` with that
partial count; otherwise it writes all `len b` bytes and succeeds.  In
every error case the handle (region and cursor) is returned unchanged
except for the bytes actually written. -/
theorem WriteAt_contract (f : MmapFile) (b : List Nat) (o : Int) :
    (f.closed = true → f.WriteAt b o = ⟨0, some .errClosed, f⟩) ∧
    (f.closed = false → f.writable = false → f.WriteAt b o = ⟨0, some .errReadOnly, f⟩) ∧
    (f.closed = false → f.writable = true → o < 0 →
      f.WriteAt b o = ⟨0, some .errNegativeOffset, f⟩) ∧
    (f.closed = false → f.writable = true → 0 ≤ o → (f.Len : Int) ≤ o →
      f.WriteAt b o = ⟨0, some .errWriteOutOfBounds, f⟩) ∧
    (f.closed = false → f.writable = true → 0 ≤ o → o < (f.Len : Int) →
      (f.Len : Int) - o < (b.length : Int) →
      f.WriteAt b o =
        ⟨f.Len - o.toNat, some .errWriteOutOfBounds,
         { f with data := f.data.take o.toNat ++ b.take (f.Len - o.toNat) }⟩) ∧
    (f.closed = false → f.writable = true → 0 ≤ o → o < (f.Len : Int) →
      (b.length : Int) ≤ (f.Len : Int) - o →
      f.WriteAt b o =
        ⟨b.length, none,
         { f with data := f.data.take o.toNat ++ (b ++ f.data.drop (o.toNat + b.length)) }⟩) := by
  refine ⟨fun hc => by simp [MmapFile.WriteAt, hc],
    fun hc hw => by simp [MmapFile.WriteAt, hc, hw],
    fun hc hw ho => by simp [MmapFile.WriteAt, hc, hw, ho], ?_, ?_, ?_⟩
  · intro hc hw ho hge
    simp only [MmapFile.Len] at hge
    simp [MmapFile.WriteAt, hc, hw, not_lt.mpr ho, hge]
  · intro hc hw ho hlt havail
    simp only [MmapFile.Len] at hlt havail ⊢
    have havt : ((f.data.length : Int) - o).toNat = f.data.length - o.toNat := by omega
    simp [MmapFile.WriteAt, goCopy, hc, hw, not_lt.mpr ho, not_le.mpr hlt, havail, havt]
    refine ⟨by omega, ?_⟩
    have hmin : (f.data.length - o.toNat) ⊓ b.length = f.data.length - o.toNat := by omega
    rw [hmin, List.take_take, min_self, List.drop_eq_nil_of_le (by omega), List.append_nil]
  · intro hc hw ho hlt hfit
    simp only [MmapFile.Len] at hlt hfit ⊢
    simp [MmapFile.WriteAt, goCopy, hc, hw, not_lt.mpr ho, not_le.mpr hlt, not_lt.mpr hfit]
    have hmin : (f.data.length - o.toNat) ⊓ b.length = b.length := by omega
    refine ⟨by omega, ?_⟩
    rw [hmin, List.take_length]

/-- Witness for C2 at concrete inputs: a read-only handle rejects a write
unchanged; an overflowing write at offset 2 of a 3-byte region writes the
one fitting byte and reports out-of-bounds; a fitting write succeeds. -/
theorem WriteAt_contract_witness :
    MmapFile.WriteAt ⟨[1, 2, 3], 0, "x", false, false⟩ [7] 0 =
      ⟨0, some .errReadOnly, ⟨[1, 2, 3], 0, "x", false, false⟩⟩ ∧
    MmapFile.WriteAt ⟨[1, 2, 3], 0, "x", true, false⟩ [7, 8, 9] 2 =
      ⟨1, some .errWriteOutOfBounds, ⟨[1, 2, 7], 0, "x", true, false⟩⟩ ∧
    MmapFile.WriteAt ⟨[1, 2, 3], 0, "x", true, false⟩ [7] 1 =
      ⟨1, none, ⟨[1, 7, 3], 0, "x", true, false⟩⟩ :=
  ⟨(WriteAt_contract ⟨[1, 2, 3], 0, "x", false, false⟩ [7] 0).2.1 rfl rfl,
   ((WriteAt_contract ⟨[1, 2, 3], 0, "x", true, false⟩ [7, 8, 9] 2).2.2.2.2.1 rfl rfl
      (by decide) (by decide) (by decide)).trans (by decide),
   ((WriteAt_contract ⟨[1, 2, 3], 0, "x", true, false⟩ [7] 1).2.2.2.2.2 rfl rfl
      (by decide) (by decide) (by decide)).trans (by decide)⟩

/-! ## C3: `Close` idempotence and behaviour of operations after `Close` -/

/-- C3 counterexample.  The claim says that once a handle is closed, every
operation except a repeated `Close` fails with the Closed error.  But
`Name`, `Len` and `Bytes` have no error result at all: on the closed
handle obtained by closing an open 3-byte handle, `Len` returns the plain
value 0, `Name` returns the file name and `Bytes` returns the empty slice
— none of them fails. -/
theorem close_ops_fail_cex :
    ((MmapFile.Close ⟨[1, 2, 3], 0, "x", true, false⟩).2).closed = true ∧
    ((MmapFile.Close ⟨[1, 2, 3], 0, "x", true, false⟩).2).Len = 0 ∧
    ((MmapFile.Close ⟨[1, 2, 3], 0, "x", true, false⟩).2).Name = "x" ∧
    ((MmapFile.Close ⟨[1, 2, 3], 0, "x", true, false⟩).2).Bytes = [] := by
  decide

/-- C3 amended.  `Close` is idempotent (the second and every later call
returns success and leaves the handle unchanged), and once a handle is
closed every fallible operation — `Read`, `ReadAt`, `Write`, `WriteAt`,
`Seek`, `ReadFrom` — fails with `ErrClosed` without moving bytes, while
the infallible accessors `Name`, `Len`, `Bytes` keep returning plain
values (the name, 0 and the empty slice for the released region). -/
theorem close_idempotent_ops_fail (f : MmapFile) (b s : List Nat) (o d w : Int) :
    ((f.Close).2).Close = (none, (f.Close).2) ∧
    (f.closed = true →
      f.Close = (none, f) ∧
      f.Read b = ⟨0, some .errClosed, b, f⟩ ∧
      f.ReadAt b o = ⟨0, some .errClosed, b⟩ ∧
      f.Write b = ⟨0, some .errClosed, f⟩ ∧
      f.WriteAt b o = ⟨0, some .errClosed, f⟩ ∧
      f.Seek d w = ⟨0, some .errClosed, f⟩ ∧
      f.ReadFrom s = ⟨0, some .errClosed, f, s⟩) ∧
    ((f.Close).2).Name = f.name ∧
    (f.closed = false → ((f.Close).2).Len = 0 ∧ ((f.Close).2).Bytes = []) := by
  refine ⟨?_, ?_, ?_, ?_⟩
  · by_cases hc : f.closed <;> simp [MmapFile.Close, hc]
  · intro hc
    exact ⟨by simp [MmapFile.Close, hc], by simp [MmapFile.Read, hc],
      by simp [MmapFile.ReadAt, hc], by simp [MmapFile.Write, hc],
      by simp [MmapFile.WriteAt, hc], by simp [MmapFile.Seek, hc],
      by simp [MmapFile.ReadFrom, hc]⟩
  · by_cases hc : f.closed <;> simp [MmapFile.Close, MmapFile.Name, hc]
  · intro hc
    simp [MmapFile.Close, MmapFile.Len, MmapFile.Bytes, hc]

/-- Witness for C3 (amended) at a concrete closed handle. -/
theorem close_idempotent_ops_fail_witness :
    MmapFile.Read ⟨[], 5, "w", true, true⟩ [1] =
      ⟨0, some .errClosed, [1], ⟨[], 5, "w", true, true⟩⟩ ∧
    MmapFile.Close ⟨[], 5, "w", true, true⟩ = (none, ⟨[], 5, "w", true, true⟩) :=
  ⟨((close_idempotent_ops_fail ⟨[], 5, "w", true, true⟩ [1] [] 0 0 0).2.1 rfl).2.1,
   ((close_idempotent_ops_fail ⟨[], 5, "w", true, true⟩ [1] [] 0 0 0).2.1 rfl).1⟩

/-! ## C4: the `Seek` contract -/

/-- C4 counterexample.  The claim reads the new cursor as the mathematical
sum `base(w) + d` and says a computed cursor `≥ 0` — even one beyond
`Len()` — makes `Seek` succeed.  But the code computes the sum in int64
arithmetic: from cursor 5, `Seek(2^63 − 1, io.SeekCurrent)` has
`base + d = 2^63 + 4 ≥ 0`, yet the int64 sum wraps negative and the code
fails `ErrNegativeOffset` with the cursor untouched. -/
theorem Seek_wrap_cex :
    (⟨[1, 2, 3], 5, "x", true, false⟩ : MmapFile).closed = false ∧
    0 ≤ (5 : Int) + (2 ^ 63 - 1) ∧
    MmapFile.Seek ⟨[1, 2, 3], 5, "x", true, false⟩ (2 ^ 63 - 1) 1 =
      ⟨0, some .errNegativeOffset, ⟨[1, 2, 3], 5, "x", true, false⟩⟩ := by
  decide

/-- C4 amended.  For an open handle, `Seek(d, w)` computes the new cursor
as `base(w) + d` in the code's int64 arithmetic — `wrap64 (base + d)` for
`io.SeekCurrent` and `io.SeekEnd`, and the stored int64 delta itself for
`io.SeekStart` — where `base` is 0 for `io.SeekStart`, the current cursor
for `io.SeekCurrent` and `Len()` for `io.SeekEnd`, and returns that new
cursor; it fails `ErrInvalidWhence` on any unrecognized whence, fails
`ErrNegativeOffset` with the cursor untouched when the computed cursor is
negative, and a computed cursor beyond `Len()` is legal: `Seek`
succeeds. -/
theorem Seek_contract (f : MmapFile) (d w : Int) (hopen : f.closed = false) :
    (¬(w = 0 ∨ w = 1 ∨ w = 2) → f.Seek d w = ⟨0, some .errInvalidWhence, f⟩) ∧
    (∀ c : Int,
      c = (if w = 0 then d else if w = 1 then wrap64 (f.offset + d)
           else wrap64 ((f.Len : Int) + d)) →
      (w = 0 ∨ w = 1 ∨ w = 2) →
      (c < 0 → f.Seek d w = ⟨0, some .errNegativeOffset, f⟩) ∧
      (0 ≤ c → f.Seek d w = ⟨c, none, { f with offset := c }⟩)) := by
  constructor
  · intro hw
    have h0 : ¬ w = 0 := fun h => hw (Or.inl h)
    have h1 : ¬ w = 1 := fun h => hw (Or.inr (Or.inl h))
    have h2 : ¬ w = 2 := fun h => hw (Or.inr (Or.inr h))
    simp [MmapFile.Seek, hopen, h0, h1, h2]
  · intro c hcEq hw
    simp only [MmapFile.Len] at hcEq
    rcases hw with rfl | rfl | rfl
    · simp only [if_pos rfl] at hcEq
      subst hcEq
      refine ⟨fun hneg => ?_, fun hpos => ?_⟩
      · simp [MmapFile.Seek, hopen, hneg]
      · simp [MmapFile.Seek, hopen, not_lt.mpr hpos]
    · norm_num at hcEq
      subst hcEq
      refine ⟨fun hneg => ?_, fun hpos => ?_⟩
      · simp [MmapFile.Seek, hopen, hneg]
      · simp [MmapFile.Seek, hopen, not_lt.mpr hpos]
    · norm_num at hcEq
      subst hcEq
      refine ⟨fun hneg => ?_, fun hpos => ?_⟩
      · simp [MmapFile.Seek, hopen, hneg]
      · simp [MmapFile.Seek, hopen, not_lt.mpr hpos]

/-- Witness for C4 (amended) at concrete inputs: on an open 3-byte handle
with cursor 1, `Seek(1, SeekCurrent)` moves to 2; `Seek(-5, SeekStart)`
fails `ErrNegativeOffset` untouched; `Seek(0, 7)` fails
`ErrInvalidWhence`; `Seek(4, SeekEnd)` past the end succeeds with
cursor 7. -/
theorem Seek_contract_witness :
    MmapFile.Seek ⟨[0, 0, 0], 1, "x", true, false⟩ 1 1 =
      ⟨2, none, ⟨[0, 0, 0], 2, "x", true, false⟩⟩ ∧
    MmapFile.Seek ⟨[0, 0, 0], 1, "x", true, false⟩ (-5) 0 =
      ⟨0, some .errNegativeOffset, ⟨[0, 0, 0], 1, "x", true, false⟩⟩ ∧
    MmapFile.Seek ⟨[0, 0, 0], 1, "x", true, false⟩ 0 7 =
      ⟨0, some .errInvalidWhence, ⟨[0, 0, 0], 1, "x", true, false⟩⟩ ∧
    MmapFile.Seek ⟨[0, 0, 0], 1, "x", true, false⟩ 4 2 =
      ⟨7, none, ⟨[0, 0, 0], 7, "x", true, false⟩⟩ :=
  ⟨((Seek_contract ⟨[0, 0, 0], 1, "x", true, false⟩ 1 1 rfl).2 2 (by decide)
      (Or.inr (Or.inl rfl))).2 (by decide),
   ((Seek_contract ⟨[0, 0, 0], 1, "x", true, false⟩ (-5) 0 rfl).2 (-5) (by decide)
      (Or.inl rfl)).1 (by decide),
   (Seek_contract ⟨[0, 0, 0], 1, "x", true, false⟩ 0 7 rfl).1 (by decide),
   ((Seek_contract ⟨[0, 0, 0], 1, "x", true, false⟩ 4 2 rfl).2 7 (by decide)
      (Or.inr (Or.inr rfl))).2 (by decide)⟩

/-- Evaluation of an in-range `Seek(d, io.SeekEnd)` on an open handle. -/
theorem seek_end_eval (f : MmapFile) (d : Int) (hopen : f.closed = false)
    (hlo : -2 ^ 63 ≤ (f.data.length : Int) + d) (hhi : (f.data.length : Int) + d < 2 ^ 63)
    (hpos : 0 ≤ (f.data.length : Int) + d) :
    f.Seek d 2 =
      ⟨(f.data.length : Int) + d, none, { f with offset := (f.data.length : Int) + d }⟩ := by
  have hw : _ = (f.data.length : Int) + d := wrap64_eq_of_range _ hlo hhi
  simp only [MmapFile.Seek, hopen]
  rw [if_pos trivial, hw, if_neg (not_lt.mpr hpos), if_neg (by decide), if_neg (by decide),
    if_neg (by decide)]

/-! ## C5: `Read` is `ReadAt` at the cursor plus a cursor advance -/

/-- C5.  On an open handle with a valid cursor, `Read(b)` returns the same
count, error и buffer as `ReadAt(b, cursor)` and advances the cursor by
the bytes actually read; once the cursor is at or past `Len()` it returns
0 bytes with `io.EOF`; `Seek(0, SeekEnd)` then `Read` yields `io.EOF` with
0 bytes; and `Seek(-n, SeekEnd)` then reading an `n`-byte buffer returns
exactly the region's last `n` bytes with no error. -/
theorem Read_contract (f : MmapFile) (b : List Nat) (hopen : f.closed = false)
    (hcur : 0 ≤ f.offset) :
    ((f.Read b).n = (f.ReadAt b f.offset).n ∧
     (f.Read b).err = (f.ReadAt b f.offset).err ∧
     (f.Read b).buf = (f.ReadAt b f.offset).buf ∧
     (f.Read b).f = { f with offset := f.offset + ((f.Read b).n : Int) }) ∧
    ((f.Len : Int) ≤ f.offset → f.Read b = ⟨0, some .eof, b, f⟩) ∧
    (f.Len < 2 ^ 63 →
      ((f.Seek 0 2).f.Read b).n = 0 ∧ ((f.Seek 0 2).f.Read b).err = some .eof) ∧
    (∀ n : Nat, 0 < n → n ≤ f.Len → b.length = n → f.Len < 2 ^ 63 →
      ((f.Seek (-(n : Int)) 2).f.Read b).buf = f.data.drop (f.Len - n) ∧
      ((f.Seek (-(n : Int)) 2).f.Read b).n = n ∧
      ((f.Seek (-(n : Int)) 2).f.Read b).err = none) := by
  obtain ⟨dat, off, nm, wr, cl⟩ := f
  change cl = false at hopen
  change 0 ≤ off at hcur
  subst hopen
  simp only [MmapFile.Len]
  refine ⟨?_, ?_, ?_, ?_⟩
  · by_cases hend : (dat.length : Int) ≤ off
    · simp [MmapFile.Read, MmapFile.ReadAt, hend, not_lt.mpr hcur]
    · simp only [MmapFile.Read, MmapFile.ReadAt, goCopy, hend, not_lt.mpr hcur,
        Bool.false_eq_true, if_false, ite_false]
      refine ⟨?_, ?_, ?_, ?_⟩ <;> split <;> simp
  · intro hge
    simp [MmapFile.Read, hge]
  · intro hlen
    rw [seek_end_eval _ 0 rfl (by dsimp only; omega) (by dsimp only; omega)
      (by dsimp only; omega)]
    simp [MmapFile.Read]
  · intro n hn hnle hb hlen
    rw [seek_end_eval _ (-(n : Int)) rfl (by dsimp only; omega) (by dsimp only; omega)
      (by dsimp only; omega)]
    have hlt2 : ¬ ((dat.length : Int) ≤ (dat.length : Int) + -(n : Int)) := by omega
    have htoNat : ((dat.length : Int) + -(n : Int)).toNat = dat.length - n := by omega
    have hdl : (dat.drop (dat.length - n)).length = n := by
      simp only [List.length_drop]
      omega
    simp only [MmapFile.Read, goCopy, Bool.false_eq_true, if_false, ite_false,
      if_neg hlt2, htoNat]
    have hp1 : min b.length (dat.drop (dat.length - n)).length = n := by
      rw [hdl, hb, min_self]
    rw [hp1, if_neg (by omega), List.take_of_length_le (le_of_eq hdl),
      List.drop_eq_nil_of_le (le_of_eq hb), List.append_nil]
    exact ⟨rfl, rfl, rfl⟩

/-- Witness for C5: on an open 5-byte handle, `Seek(-2, SeekEnd)` then a
2-byte `Read` returns the last two bytes, and `Seek(0, SeekEnd)` then
`Read` reports `io.EOF`. -/
theorem Read_contract_witness :
    ((MmapFile.Seek ⟨[1, 2, 3, 4, 5], 1, "x", true, false⟩ (-2) 2).f.Read [9, 9]).buf =
      [4, 5] ∧
    ((MmapFile.Seek ⟨[1, 2, 3, 4, 5], 1, "x", true, false⟩ 0 2).f.Read [9, 9]).err =
      some .eof :=
  ⟨(((Read_contract ⟨[1, 2, 3, 4, 5], 1, "x", true, false⟩ [9, 9] rfl (by decide)).2.2.2
      2 (by decide) (by decide) rfl (by decide)).1).trans (by decide),
   ((Read_contract ⟨[1, 2, 3, 4, 5], 1, "x", true, false⟩ [9, 9] rfl (by decide)).2.2.1
      (by decide)).2⟩

/-! ## C10: a failed `Seek` leaves the handle (and its cursor) unchanged -/

/-- C10.  Whenever `Seek` returns an error (`ErrClosed`, `ErrInvalidWhence`
or `ErrNegativeOffset`), the handle — in particular its cursor — is
returned unchanged, so a later operation observes the same cursor value as
before the failed call. -/
theorem Seek_error_state_unchanged (f : MmapFile) (d w : Int)
    (herr : (f.Seek d w).err ≠ none) : (f.Seek d w).f = f := by
  unfold MmapFile.Seek at herr ⊢
  split_ifs at herr ⊢ <;> try rfl
  all_goals dsimp only at herr ⊢
  all_goals split_ifs at herr ⊢ <;> simp_all

/-- Witness for C10: an invalid whence and a negative target both leave a
concrete handle with cursor 3 untouched. -/
theorem Seek_error_state_unchanged_witness :
    (MmapFile.Seek ⟨[1, 2], 3, "x", true, false⟩ 0 9).f = ⟨[1, 2], 3, "x", true, false⟩ ∧
    (MmapFile.Seek ⟨[1, 2], 3, "x", true, false⟩ (-7) 0).f = ⟨[1, 2], 3, "x", true, false⟩ :=
  ⟨Seek_error_state_unchanged ⟨[1, 2], 3, "x", true, false⟩ 0 9 (by decide),
   Seek_error_state_unchanged ⟨[1, 2], 3, "x", true, false⟩ (-7) 0 (by decide)⟩

/-! ## C9: `Len` across the handle's operations -/

/-- Go's `copy` never changes the length of the destination slice. -/
theorem goCopy_length (dst src : List Nat) : ((goCopy dst src).2).length = dst.length := by
  simp only [goCopy, List.length_append, List.length_take, List.length_drop]
  omega

/-- The `ReadFrom` loop writes in place: the region's length is preserved. -/
theorem readFromLoop_len (f : MmapFile) (s : List Nat) (n : Nat) :
    ((MmapFile.readFromLoop f s n).f).data.length = f.data.length := by
  induction f, s, n using MmapFile.readFromLoop.induct with
  | case1 f n h =>
    unfold MmapFile.readFromLoop
    simp [h]
  | case2 f s n h1 h2 offN m hm =>
    unfold MmapFile.readFromLoop
    dsimp only
    rw [dif_pos h1, dif_neg h2, dif_pos hm]
  | case3 f s n h1 h2 offN m hm f' ih =>
    unfold MmapFile.readFromLoop
    dsimp only
    rw [dif_pos h1, dif_neg h2, dif_neg hm]
    rw [ih]
    simp only [List.length_append, List.length_take, List.length_drop]
    omega
  | case4 f n h =>
    unfold MmapFile.readFromLoop
    simp [h]
  | case5 f n h head rest =>
    unfold MmapFile.readFromLoop
    simp [h]

/-- C9 counterexample.  The claim says no operation ever changes the value
`Len()` reports, but `Close` releases the mapping and sets the region to
nil: a 3-byte handle reports `Len() = 3` before `Close` and `Len() = 0`
after it. -/
theorem len_invariant_cex :
    (⟨[1, 2, 3], 0, "x", true, false⟩ : MmapFile).Len = 3 ∧
    ((MmapFile.Close ⟨[1, 2, 3], 0, "x", true, false⟩).2).Len = 0 := by
  decide

/-- C9 amended.  `Len()` is invariant under every operation while the
handle is open — `Read`, `Write`, `WriteAt`, `Seek` and `ReadFrom` all
return a handle with the same `Len` (`ReadAt` does not touch the handle at
all), so `Len` equals the region size fixed at open time until `Close`;
the first `Close` resets the reported `Len` to 0. -/
theorem len_invariant_ops (f : MmapFile) (b s : List Nat) (o d w : Int) :
    ((f.Read b).f).Len = f.Len ∧
    ((f.Write b).f).Len = f.Len ∧
    ((f.WriteAt b o).f).Len = f.Len ∧
    ((f.Seek d w).f).Len = f.Len ∧
    ((f.ReadFrom s).f).Len = f.Len ∧
    (f.closed = false → ((f.Close).2).Len = 0) := by
  refine ⟨?_, ?_, ?_, ?_, ?_, ?_⟩
  · unfold MmapFile.Read MmapFile.Len
    dsimp only
    split_ifs <;> rfl
  · unfold MmapFile.Write MmapFile.Len
    dsimp only
    split_ifs <;> simp [goCopy_length, List.length_drop] <;> omega
  · unfold MmapFile.WriteAt MmapFile.Len
    dsimp only
    split_ifs <;> simp [goCopy_length, List.length_drop] <;> omega
  · unfold MmapFile.Seek MmapFile.Len
    dsimp only
    split_ifs <;> simp
  · unfold MmapFile.ReadFrom MmapFile.Len
    split_ifs <;> simp [readFromLoop_len]
  · intro hc
    simp [MmapFile.Close, MmapFile.Len, hc]

/-- Witness for C9 (amended) at concrete inputs: a write, a seek and a
read all keep `Len = 3`; closing drops it to 0. -/
theorem len_invariant_ops_witness :
    ((MmapFile.WriteAt ⟨[1, 2, 3], 0, "x", true, false⟩ [7, 8] 1).f).Len = 3 ∧
    ((MmapFile.Seek ⟨[1, 2, 3], 0, "x", true, false⟩ 9 0).f).Len = 3 ∧
    ((MmapFile.Close ⟨[1, 2, 3], 0, "x", true, false⟩).2).Len = 0 :=
  ⟨(len_invariant_ops ⟨[1, 2, 3], 0, "x", true, false⟩ [7, 8] [] 1 0 0).2.2.1,
   (len_invariant_ops ⟨[1, 2, 3], 0, "x", true, false⟩ [7, 8] [] 1 9 0).2.2.2.1,
   (len_invariant_ops ⟨[1, 2, 3], 0, "x", true, false⟩ [7, 8] [] 1 0 0).2.2.2.2.2 rfl⟩

/-! ## C6: the write/read round-trip law -/

/-- C6 counterexample.  The claim quantifies over every buffer and offset,
but for an out-of-range offset nothing is written and nothing is read
back: on a writable open 1-byte handle, `WriteAt([7], 5)` then `ReadAt`
with a 1-byte buffer at offset 5 leaves the read buffer `[0] ≠ [7]`. -/
theorem roundtrip_cex :
    (⟨[0], 0, "x", true, false⟩ : MmapFile).writable = true ∧
    (⟨[0], 0, "x", true, false⟩ : MmapFile).closed = false ∧
    ((MmapFile.WriteAt ⟨[0], 0, "x", true, false⟩ [7] 5).f.ReadAt [0] 5).buf ≠ [7] := by
  decide

/-- Evaluation of a fully fitting `WriteAt` (the no-error branch). -/
theorem WriteAt_fit_eval (f : MmapFile) (b : List Nat) (o : Int)
    (hc : f.closed = false) (hw : f.writable = true) (ho : 0 ≤ o)
    (hlt : o < (f.data.length : Int)) (hfit : (b.length : Int) ≤ (f.data.length : Int) - o) :
    f.WriteAt b o =
      ⟨b.length, none,
       { f with data := f.data.take o.toNat ++ (b ++ f.data.drop (o.toNat + b.length)) }⟩ := by
  simp [MmapFile.WriteAt, goCopy, hc, hw, not_lt.mpr ho, not_le.mpr hlt, not_lt.mpr hfit]
  have hmin : (f.data.length - o.toNat) ⊓ b.length = b.length := by omega
  refine ⟨by omega, ?_⟩
  rw [hmin, List.take_length]

/-- C6 amended.  On a writable open handle, for every buffer `b` and
offset `o` that lie within the region (`0 ≤ o` and `o + len b ≤ Len()`),
`WriteAt(b, o)` followed by `ReadAt` with a buffer of length `len b` at
offset `o` returns exactly `b`. -/
theorem roundtrip (f : MmapFile) (b c : List Nat) (o : Int)
    (hopen : f.closed = false) (hw : f.writable = true) (ho : 0 ≤ o)
    (hfit : o.toNat + b.length ≤ f.Len) (hc : c.length = b.length) :
    ((f.WriteAt b o).f.ReadAt c o).buf = b := by
  simp only [MmapFile.Len] at hfit
  by_cases hlt : o < (f.data.length : Int)
  · -- interior offsets: the written bytes land and are read back
    have hfit2 : (b.length : Int) ≤ (f.data.length : Int) - o := by omega
    rw [WriteAt_fit_eval f b o hopen hw ho hlt hfit2]
    have htake : (f.data.take o.toNat).length = o.toNat := by
      simp only [List.length_take]
      omega
    have hd2len :
        (f.data.take o.toNat ++ (b ++ f.data.drop (o.toNat + b.length))).length =
          f.data.length := by
      simp only [List.length_append, List.length_take, List.length_drop]
      omega
    have hdrop :
        (f.data.take o.toNat ++ (b ++ f.data.drop (o.toNat + b.length))).drop o.toNat =
          b ++ f.data.drop (o.toNat + b.length) := by
      rw [List.drop_append_of_le_length (le_of_eq htake.symm),
        List.drop_eq_nil_of_le (le_of_eq htake), List.nil_append]
    simp only [MmapFile.ReadAt, hopen, Bool.false_eq_true, if_false, not_lt.mpr ho, ite_false,
      hd2len, not_le.mpr hlt, goCopy, hdrop]
    have hp1 : min c.length (b ++ f.data.drop (o.toNat + b.length)).length = b.length := by
      simp only [List.length_append]
      omega
    rw [hp1, if_neg (by omega)]
    have hbt : (b ++ f.data.drop (o.toNat + b.length)).take b.length = b := by
      rw [List.take_append_of_le_length (le_refl _), List.take_length]
    show (b ++ f.data.drop (o.toNat + b.length)).take b.length ++ c.drop b.length = b
    rw [hbt, List.drop_eq_nil_of_le (le_of_eq hc), List.append_nil]
  · -- `o = Len()` is the only in-domain offset left: it forces `b = []`;
    -- the write is rejected out of bounds, the read reports `io.EOF`, and
    -- the (empty) buffer equals `b`
    have hge : (f.data.length : Int) ≤ o := not_lt.mp hlt
    have hb : b = [] := List.length_eq_zero.mp (by omega)
    have hcnil : c = [] := List.length_eq_zero.mp (by rw [hc, hb]; rfl)
    subst hb
    subst hcnil
    simp [MmapFile.WriteAt, MmapFile.ReadAt, hopen, hw, not_lt.mpr ho, hge]

/-- Witness for C6 (amended): writing `[7, 8]` at offset 1 of a 4-byte
region and reading two bytes back at offset 1 returns `[7, 8]`. -/
theorem roundtrip_witness :
    ((MmapFile.WriteAt ⟨[1, 2, 3, 4], 0, "x", true, false⟩ [7, 8] 1).f.ReadAt [0, 0] 1).buf =
      [7, 8] :=
  roundtrip ⟨[1, 2, 3, 4], 0, "x", true, false⟩ [7, 8] [0, 0] 1 rfl rfl (by decide)
    (by decide) (by decide)

/-! ## C7: resizing behaviour of `OpenFile` -/

/-- `Truncate` always produces a file of exactly the requested size. -/
theorem goTruncate_length (contents : List Nat) (size : Nat) :
    (goTruncate contents size).length = size := by
  simp only [goTruncate, List.length_append, List.length_take, List.length_replicate]
  omega

/-- C7 counterexample.  The claim says opening with the create-if-missing
flag resizes the file to the requested size before mapping, but the code
only truncates on create when the stat size is 0: opening an existing
20-byte file with `O_RDWR|O_CREATE` and `size = 100` maps 20 bytes, not
100. -/
theorem OpenFile_resize_cex :
    (OpenFile (some (List.replicate 20 1)) "p" ⟨true, false, true, false, false⟩ 100).map
      MmapFile.Len = .ok 20 ∧
    (OpenFile (some (List.replicate 20 1)) "p" ⟨true, false, true, false, false⟩ 100).map
      MmapFile.Len ≠ .ok 100 := by
  decide

/-- C7 amended.  In a writable mode (`O_RDWR` or `O_WRONLY`), `OpenFile`
resizes the file to the requested size before mapping when opening a
missing path with the create-if-missing flag and a positive size (the file
is created empty, then grown), and whenever the truncate-to-size flag is
given with a positive size; with create-if-missing alone, an existing
non-empty file keeps its own size; and in a read-only mode those same
resize requests fail — `ftruncate` on a read-only descriptor errors and
`OpenFile` returns that error instead of a handle.  In particular a fresh
path opened read-write with CreateIfMissing and size 100 maps 100 bytes,
and an existing 11-byte file opened read-write with TruncateToSize and
size 50 maps 50 bytes. -/
theorem OpenFile_resize (name : String) (flag : OpenFlags) (size : Int)
    (contents : List Nat) (happ : flag.append = false) :
    ((flag.rdwr || flag.wronly) = true → flag.create = true → 0 < size →
      (OpenFile none name flag size).map MmapFile.Len = .ok size.toNat) ∧
    ((flag.rdwr || flag.wronly) = true → flag.trunc = true → 0 < size →
      (OpenFile (some contents) name flag size).map MmapFile.Len = .ok size.toNat) ∧
    (flag.create = true → flag.trunc = false → contents ≠ [] →
      (OpenFile (some contents) name flag size).map MmapFile.Len = .ok contents.length) ∧
    ((flag.rdwr || flag.wronly) = false → flag.create = true → 0 < size →
      ∀ g, OpenFile none name flag size ≠ .ok g) ∧
    ((flag.rdwr || flag.wronly) = false → flag.trunc = true → 0 < size →
      ∀ g, OpenFile (some contents) name flag size ≠ .ok g) := by
  refine ⟨?_, ?_, ?_, ?_, ?_⟩
  · intro hrw hcr hsz
    simp [OpenFile, Except.map, happ, hrw, hcr, hsz, MmapFile.Len, goTruncate_length]
  · intro hrw htr hsz
    by_cases h1 : flag.create = true ∧ ((contents.length : Nat) : Int) = 0 ∧ 0 < size
    · simp [OpenFile, Except.map, happ, hrw, h1, MmapFile.Len, goTruncate_length]
    · simp [OpenFile, Except.map, happ, hrw, h1, htr, hsz, MmapFile.Len, goTruncate_length]
  · intro hcr htr hne
    have hlen : ¬ ((contents.length : Nat) : Int) = 0 := by
      simp only [Int.natCast_eq_zero, List.length_eq_zero]
      exact hne
    simp [OpenFile, Except.map, happ, hcr, htr, hlen, MmapFile.Len]
  · intro hrw hcr hsz g
    simp [OpenFile, happ, hrw, hcr, hsz]
  · intro hrw htr hsz g
    by_cases h1 : flag.create = true ∧ ((contents.length : Nat) : Int) = 0 ∧ 0 < size
    · simp [OpenFile, happ, hrw, h1]
    · simp [OpenFile, happ, hrw, h1, htr, hsz]
      split <;> simp

/-- Witness for C7 (amended): the two read-write scenarios from the claim,
plus a read-only truncate request that yields no handle. -/
theorem OpenFile_resize_witness :
    (OpenFile none "p" ⟨true, false, true, false, false⟩ 100).map MmapFile.Len = .ok 100 ∧
    (OpenFile (some (List.replicate 11 7)) "p" ⟨true, false, false, true, false⟩ 50).map
      MmapFile.Len = .ok 50 ∧
    OpenFile (some (List.replicate 11 7)) "p" ⟨false, false, false, true, false⟩ 50 ≠
      .ok ⟨List.replicate 50 0, 0, "p", false, false⟩ :=
  ⟨((OpenFile_resize "p" ⟨true, false, true, false, false⟩ 100 [] rfl).1 rfl rfl
      (by decide)).trans (by decide),
   ((OpenFile_resize "p" ⟨true, false, false, true, false⟩ 50 (List.replicate 11 7) rfl).2.1
      rfl rfl (by decide)).trans (by decide),
   (OpenFile_resize "p" ⟨false, false, false, true, false⟩ 50 (List.replicate 11 7)
      rfl).2.2.2.2 rfl rfl (by decide) ⟨List.replicate 50 0, 0, "p", false, false⟩⟩

/-! ## C8: the `ReadFrom` contract -/

/-- The `ReadFrom` loop on an exhausted source returns success at once. -/
theorem readFromLoop_nil (f : MmapFile) (n : Nat) :
    MmapFile.readFromLoop f [] n = ⟨n, none, f, []⟩ := by
  unfold MmapFile.readFromLoop
  split_ifs <;> first | rfl | simp_all

/-- The `ReadFrom` loop on a full region performs only the one-byte probe:
on a non-empty source it fails `ErrWriteOutOfBounds`, consuming the probed
byte. -/
theorem readFromLoop_full_cons (f : MmapFile) (x : Nat) (rest : List Nat) (n : Nat)
    (h : ¬ f.offset < (f.data.length : Int)) :
    MmapFile.readFromLoop f (x :: rest) n = ⟨n, some .errWriteOutOfBounds, f, rest⟩ := by
  unfold MmapFile.readFromLoop
  rw [dif_neg h]

/-- The `ReadFrom` loop on a full region with an exhausted source probes
once and succeeds. -/
theorem readFromLoop_full_nil (f : MmapFile) (n : Nat)
    (h : ¬ f.offset < (f.data.length : Int)) :
    MmapFile.readFromLoop f [] n = ⟨n, none, f, []⟩ := readFromLoop_nil f n

/-- C8.  On a writable open handle, `ReadFrom(source)` pulls bytes from
the source into the region starting at the cursor until the source is
exhausted or the region is full: it moves `min (len source) avail` bytes
(where `avail` is the room between the cursor and `Len()`), advances the
cursor by that count, and reports `ErrWriteOutOfBounds` (after probing the
source once more) exactly when the source still has data once the region
is full, success otherwise. -/
theorem ReadFrom_contract (f : MmapFile) (s : List Nat)
    (hopen : f.closed = false) (hwr : f.writable = true) (hcur : 0 ≤ f.offset) :
    (f.ReadFrom s).n = min s.length (((f.Len : Int) - f.offset).toNat) ∧
    ((f.ReadFrom s).err = some .errWriteOutOfBounds ↔
      ((f.Len : Int) - f.offset).toNat < s.length) ∧
    ((f.ReadFrom s).err = none ↔ s.length ≤ ((f.Len : Int) - f.offset).toNat) ∧
    ((f.ReadFrom s).f).data =
      f.data.take f.offset.toNat ++
        (s.take ((f.ReadFrom s).n) ++ f.data.drop (f.offset.toNat + (f.ReadFrom s).n)) ∧
    ((f.ReadFrom s).f).offset = f.offset + (((f.ReadFrom s).n : Nat) : Int) := by
  simp only [MmapFile.Len]
  unfold MmapFile.ReadFrom
  simp only [hopen, hwr, Bool.not_true, Bool.false_eq_true, if_false, ite_false]
  by_cases hend : f.offset < (f.data.length : Int)
  case neg =>
    have havail : ((f.data.length : Int) - f.offset).toNat = 0 := by omega
    cases s with
    | nil =>
      rw [readFromLoop_full_nil f 0 hend]
      refine ⟨by simp [havail], iff_of_false (by simp) (by simp [havail]),
        iff_of_true rfl (by simp [havail]), ?_, by simp⟩
      simp only [List.take_nil, List.nil_append, Nat.add_zero]
      exact (List.take_append_drop _ _).symm
    | cons x rest =>
      rw [readFromLoop_full_cons f x rest 0 hend]
      refine ⟨by simp [havail], iff_of_true rfl (by simp [havail]),
        iff_of_false (by simp) (by simp [havail]), ?_, by simp⟩
      simp only [List.take_zero, List.nil_append, Nat.add_zero]
      exact (List.take_append_drop _ _).symm
  case pos =>
    have hoffN : f.offset.toNat < f.data.length := by omega
    have havail : ((f.data.length : Int) - f.offset).toNat =
        f.data.length - f.offset.toNat := by omega
    cases s with
    | nil =>
      rw [readFromLoop_nil]
      refine ⟨by simp, iff_of_false (by simp) (by simp), iff_of_true rfl (by simp), ?_,
        by simp⟩
      simp only [List.take_nil, List.nil_append, Nat.add_zero]
      exact (List.take_append_drop _ _).symm
    | cons x rest =>
      unfold MmapFile.readFromLoop
      rw [dif_pos hend, dif_neg (List.cons_ne_nil x rest)]
      dsimp only
      have hm0 : ¬ ((f.data.length - f.offset.toNat) ⊓ (x :: rest).length = 0) := by
        simp only [List.length_cons]
        omega
      by_cases hcase : (x :: rest).length ≤ f.data.length - f.offset.toNat
      · have hm_eq : (f.data.length - f.offset.toNat) ⊓ (x :: rest).length =
            (x :: rest).length := by omega
        rw [dif_neg hm0, hm_eq, List.drop_length, readFromLoop_nil]
        refine ⟨by simp only [Nat.zero_add, havail]; omega,
          iff_of_false (by simp) (by simp only [havail]; omega),
          iff_of_true rfl (by simp only [havail]; omega), ?_,
          by simp⟩
        simp only [Nat.zero_add, List.take_length, List.drop_drop]
      · have hm_eq : (f.data.length - f.offset.toNat) ⊓ (x :: rest).length =
            f.data.length - f.offset.toNat := by omega
        rw [dif_neg hm0, hm_eq]
        simp only [List.length_cons] at hcase
        have hne : (x :: rest).drop (f.data.length - f.offset.toNat) ≠ [] := by
          simp only [ne_eq, List.drop_eq_nil_iff_le, List.length_cons]
          omega
        obtain ⟨y, ys, hys⟩ := List.exists_cons_of_ne_nil hne
        have hlen2 : (f.data.take f.offset.toNat ++
            ((x :: rest).take (f.data.length - f.offset.toNat) ++
              (f.data.drop f.offset.toNat).drop (f.data.length - f.offset.toNat))).length =
            f.data.length := by
          simp only [List.length_append, List.length_take, List.length_drop,
            List.length_cons]
          omega
        rw [hys, readFromLoop_full_cons _ y ys _ (by
          dsimp only
          rw [hlen2]
          omega)]
        refine ⟨by simp only [Nat.zero_add, havail, List.length_cons]; omega,
          iff_of_true rfl (by simp only [havail, List.length_cons]; omega),
          iff_of_false (by simp) (by simp only [havail, List.length_cons]; omega), ?_,
          by simp⟩
        simp only [Nat.zero_add, List.drop_drop]

/-- Witness for C8: the claim's scenario — `ReadFrom` on an open writable
10-byte handle fed a 35-byte source writes exactly 10 bytes and reports
`ErrWriteOutOfBounds`. -/
theorem ReadFrom_contract_witness :
    (MmapFile.ReadFrom ⟨List.replicate 10 0, 0, "t", true, false⟩ (List.range 35)).n = 10 ∧
    (MmapFile.ReadFrom ⟨List.replicate 10 0, 0, "t", true, false⟩ (List.range 35)).err =
      some .errWriteOutOfBounds :=
  ⟨((ReadFrom_contract ⟨List.replicate 10 0, 0, "t", true, false⟩ (List.range 35) rfl rfl
      (by decide)).1).trans (by decide),
   ((ReadFrom_contract ⟨List.replicate 10 0, 0, "t", true, false⟩ (List.range 35) rfl rfl
      (by decide)).2.1).mpr (by decide)⟩
